import Mathlib

/-!
Shallow embedding of the core of the `bf-rando-installer` repository:
the PE/CLI metadata parser (`src/dll_parser.rs`), the signature
classifier (`src/dll_classifier.rs`) and the fleet manager
(`src/dll_management.rs`).

Byte buffers are modelled as `List Nat` (each element a byte value).
Machine integers are modelled as `Nat` with explicit `% 2^w` at the
places where the Rust code can wrap (release-profile semantics, which is
how the installer is shipped: arithmetic overflow wraps, only indexing
panics).  Fallible Rust operations returning `Result` become `Except`;
operations that can panic (unchecked slice indexing) are tracked by an
explicit `panic` outcome so that panic freedom is a provable theorem and
not an artifact of the embedding.
-/

/-- Outcome of a Rust computation that may return a value, return an
error, or panic (unchecked indexing out of bounds). -/
inductive PResult (α : Type) where
  | ok : α → PResult α
  | err : String → PResult α
  | panic : PResult α
deriving DecidableEq, Repr

/-- `slice.get(a..)` of Rust: `some` suffix when `a ≤ len`, else `none`. -/
def sliceFrom (l : List Nat) (a : Nat) : Option (List Nat) :=
  if a ≤ l.length then some (l.drop a) else none

/-- `slice.get(a..b)` of Rust: `some` of the sub-slice when
`a ≤ b ≤ len`, else `none`. -/
def sliceGet (l : List Nat) (a b : Nat) : Option (List Nat) :=
  if a ≤ b ∧ b ≤ l.length then some ((l.take b).drop a) else none

/-- `read_u16` of `dll_parser.rs`: two bytes little-endian at `off`,
bounds-checked. -/
def read_u16 (data : List Nat) (off : Nat) (msg : String) : Except String Nat :=
  if off + 2 ≤ data.length then
    .ok (data.getD off 0 + 256 * data.getD (off + 1) 0)
  else .error msg

/-- `read_u32` of `dll_parser.rs`: four bytes little-endian at `off`,
bounds-checked. -/
def read_u32 (data : List Nat) (off : Nat) (msg : String) : Except String Nat :=
  if off + 4 ≤ data.length then
    .ok (data.getD off 0 + 256 * data.getD (off + 1) 0 +
         65536 * data.getD (off + 2) 0 + 16777216 * data.getD (off + 3) 0)
  else .error msg

/-- `usize::next_multiple_of(4)` (no wrap occurs at its use sites). -/
def nextMultipleOf4 (n : Nat) : Nat := ((n + 3) / 4) * 4

/-- A parsed PE section: its virtual address range and the file-backed
bytes.  `virtEnd` is `virtual_start + virtual_size` computed in `u32`,
which wraps in the shipped (release) profile. -/
structure DllSection where
  virtStart : Nat
  virtEnd : Nat
  fileBytes : List Nat
deriving DecidableEq, Repr

/-- The section-table loop of `parse_dll` (lines 24-46 of
`dll_parser.rs`): reads `n` entries with 40-byte stride starting at
`24 + optHeaderSize + i * 40` inside the PE header.  Every read and
slice is checked, so the loop returns `Except` (it cannot panic). -/
def readSections (data peHeader : List Nat) (optHeaderSize : Nat) (i : Nat) :
    Nat → Except String (List DllSection)
  | 0 => .ok []
  | n + 1 =>
    let sectionStart := 24 + optHeaderSize + i * 40
    match read_u32 peHeader (sectionStart + 8) "EOF section" with
    | .error e => .error e
    | .ok virtualSize =>
    match read_u32 peHeader (sectionStart + 12) "EOF section" with
    | .error e => .error e
    | .ok virtualStart =>
    match read_u32 peHeader (sectionStart + 16) "EOF section" with
    | .error e => .error e
    | .ok fileSize =>
    match read_u32 peHeader (sectionStart + 20) "EOF section" with
    | .error e => .error e
    | .ok fileStart =>
    match sliceGet data fileStart (fileStart + fileSize) with
    | none => .error "EOF section data"
    | some fileBytes =>
    match readSections data peHeader optHeaderSize (i + 1) n with
    | .error e => .error e
    | .ok rest =>
      .ok ({ virtStart := virtualStart,
             virtEnd := (virtualStart + virtualSize) % 4294967296,
             fileBytes := fileBytes } :: rest)

/-- `resolve_rva` of `dll_parser.rs`: find the first section whose
virtual range contains the RVA and return its file bytes from
`rva - virtual_start` on; checked, an unresolvable RVA is an error. -/
def resolve_rva (rva : Nat) (sections : List DllSection) (msg : String) :
    Except String (List Nat) :=
  match sections with
  | [] => .error msg
  | s :: rest =>
    if s.virtStart ≤ rva ∧ rva < s.virtEnd then
      match sliceFrom s.fileBytes (rva - s.virtStart) with
      | none => .error msg
      | some bytes => .ok bytes
    else resolve_rva rva rest msg

/-- One entry of the CLI metadata stream directory. -/
structure CliStream where
  name : List Nat
  data : List Nat
deriving DecidableEq, Repr

/-- The stream-directory loop of `parse_dll` (lines 62-93 of
`dll_parser.rs`).  The source uses two unchecked slice operations,
`stream_header[8..]` and `&stream_header[8..8 + name_length]`, which
panic when out of bounds; both are modelled as explicit `panic`
outcomes.  All other reads are checked. -/
def readStreams (metadata streamHeader : List Nat) :
    Nat → PResult (List CliStream)
  | 0 => .ok []
  | n + 1 =>
    match read_u32 streamHeader 0 "EOF stream offset" with
    | .error e => .err e
    | .ok offset =>
    match read_u32 streamHeader 4 "EOF stream size" with
    | .error e => .err e
    | .ok size =>
    match sliceFrom streamHeader 8 with
    | none => .panic
    | some tail =>
    match List.findIdx? (fun c => c == 0) tail with
    | none => .err "EOF stream name"
    | some nameLength =>
    match sliceGet streamHeader 8 (8 + nameLength) with
    | none => .panic
    | some name =>
    match sliceGet metadata offset (offset + size) with
    | none => .err "EOF stream data"
    | some streamData =>
    match sliceFrom streamHeader (8 + nextMultipleOf4 (nameLength + 1)) with
    | none => .err "EOF next stream"
    | some rest =>
    match readStreams metadata rest n with
    | .ok streams => .ok ({ name := name, data := streamData } :: streams)
    | .err e => .err e
    | .panic => .panic

/-- The two heap views returned by the parser. -/
structure DllHeaps where
  strings : List Nat
  us : List Nat
deriving DecidableEq, Repr

/-- `parse_dll` of `dll_parser.rs`, step for step.  The `u32` value
`version_length` is rounded with `next_multiple_of(4)`, which wraps in
`u32` in the release profile, hence the `% 4294967296`. -/
def parse_dll (data : List Nat) : PResult DllHeaps :=
  match read_u32 data 60 "EOF lfanew" with
  | .error e => .err e
  | .ok lfanew =>
  match sliceFrom data lfanew with
  | none => .err "Invalid lfanew"
  | some peHeader =>
  if sliceGet peHeader 0 4 ≠ some [80, 69, 0, 0] then .err "Invalid PE magic"
  else
  match read_u16 peHeader 6 "EOF num_sections" with
  | .error e => .err e
  | .ok numSections =>
  match read_u16 peHeader 20 "EOF opt_header_size" with
  | .error e => .err e
  | .ok optHeaderSize =>
  match sliceGet peHeader 24 (24 + optHeaderSize) with
  | none => .err "EOF optional_header"
  | some optionalHeader =>
  match readSections data peHeader optHeaderSize 0 numSections with
  | .error e => .err e
  | .ok sections =>
  match read_u32 optionalHeader 208 "opt_header too small" with
  | .error e => .err e
  | .ok cliHeaderRva =>
  match resolve_rva cliHeaderRva sections "Invalid CLI header RVA" with
  | .error e => .err e
  | .ok cliHeader =>
  match read_u32 cliHeader 8 "EOF metadata rva" with
  | .error e => .err e
  | .ok metadataRva =>
  match resolve_rva metadataRva sections "Invalid metadata RVA" with
  | .error e => .err e
  | .ok metadata =>
  if sliceGet metadata 0 4 ≠ some [66, 83, 74, 66] then .err "Invalid metadata magic"
  else
  match read_u32 metadata 12 "EOF metadata version length" with
  | .error e => .err e
  | .ok versionLengthRaw =>
  match read_u16 metadata (16 + nextMultipleOf4 versionLengthRaw % 4294967296 + 2)
      "EOF num_streams" with
  | .error e => .err e
  | .ok numStreams =>
  match sliceFrom metadata (16 + nextMultipleOf4 versionLengthRaw % 4294967296 + 4) with
  | none => .err "EOF streams"
  | some streamHeader =>
  match readStreams metadata streamHeader numStreams with
  | .err e => .err e
  | .panic => .panic
  | .ok streams =>
  match streams.find? (fun s => s.name == [35, 83, 116, 114, 105, 110, 103, 115]) with
  | none => .err "No #Strings heap"
  | some stringsHeap =>
  match streams.find? (fun s => s.name == [35, 85, 83]) with
  | none => .err "No #US heap"
  | some usHeap => .ok { strings := stringsHeap.data, us := usHeap.data }

/-! ## Panic freedom of the parser -/

theorem read_u32_ok_length {data : List Nat} {off : Nat} {msg : String} {v : Nat}
    (h : read_u32 data off msg = .ok v) : off + 4 ≤ data.length := by
  by_contra hc
  simp [read_u32, hc] at h

theorem findIdx?_some_lt {α : Type} {p : α → Bool} :
    ∀ (l : List α) (i : Nat), List.findIdx? p l = some i → i < l.length := by
  intro l
  induction l with
  | nil => intro i h; simp [List.findIdx?] at h
  | cons x xs ih =>
    intro i h
    rw [List.findIdx?_cons] at h
    by_cases hp : p x = true
    · simp [hp] at h
      simp only [List.length_cons]
      omega
    · simp [hp] at h
      obtain ⟨a, ha, hai⟩ := h
      have := ih a ha
      simp only [List.length_cons]
      omega

theorem readStreams_no_panic (metadata : List Nat) :
    ∀ (n : Nat) (sh : List Nat), readStreams metadata sh n ≠ .panic := by
  intro n
  induction n with
  | zero => intro sh h; simp [readStreams] at h
  | succ n ih =>
    intro sh h
    unfold readStreams at h
    repeat' split at h
    any_goals exact PResult.noConfusion h
    · -- `stream_header[8..]` cannot be out of bounds: the checked read of
      -- the stream size already required at least 8 bytes.
      rename_i a1 offset hoff a2 size h4 a3 hsf
      have hlen : 8 ≤ sh.length := read_u32_ok_length h4
      simp [sliceFrom, hlen] at hsf
    · -- `&stream_header[8..8 + name_length]` cannot be out of bounds:
      -- the NUL position found is inside `stream_header[8..]`.
      rename_i a1 offset hoff a2 size h4 a3 tail hsf a4 nameLength hfi a5 hsg
      have hlen : 8 ≤ sh.length := read_u32_ok_length h4
      have hlt := findIdx?_some_lt tail nameLength hfi
      have htail : List.drop 8 sh = tail := by
        simpa [sliceFrom, hlen] using hsf
      have htl : tail.length = sh.length - 8 := by rw [← htail]; simp
      simp [sliceGet] at hsg
      omega
    · rename_i hrec
      exact ih _ hrec

theorem parse_dll_no_panic (data : List Nat) : parse_dll data ≠ .panic := by
  intro h
  unfold parse_dll at h
  repeat' split at h
  any_goals exact PResult.noConfusion h
  rename_i hrs
  exact readStreams_no_panic _ _ _ hrs


/-! ## Signature classifier (`dll_classifier.rs`) -/

/-- `RandoVersion` of `dll_classifier.rs`; the derived Rust `Ord` is
lexicographic in declaration order (major, minor, patch). -/
structure RandoVersion where
  major : Nat
  minor : Nat
  patch : Nat
deriving DecidableEq, Repr

/-- `DllClassification` of `dll_classifier.rs`. -/
inductive DllClassification where
  | Invalid
  | NonDe
  | Vanilla
  | Rando : RandoVersion → DllClassification
  | UnknownRando : Nat → DllClassification
deriving DecidableEq, Repr

/-- `memchr::memmem::find(haystack, needle).is_some()`: does `needle`
occur as a contiguous subsequence of `haystack`? -/
def containsSeq (needle : List Nat) : List Nat → Bool
  | [] => needle.isEmpty
  | x :: rest => needle.isPrefixOf (x :: rest) || containsSeq needle rest

/-- The byte string `b"SpiritGrenadeDamageDealer\0"`, the marker of the
definitive edition of the target game. -/
def spiritMarker : List Nat :=
  [83, 112, 105, 114, 105, 116, 71, 114, 101, 110, 97, 100, 101,
   68, 97, 109, 97, 103, 101, 68, 101, 97, 108, 101, 114, 0]

/-- The byte string `b"HoldingNightberryCondition\0"`, the marker of the
legacy (non-definitive) edition. -/
def nightberryMarker : List Nat :=
  [72, 111, 108, 100, 105, 110, 103, 78, 105, 103, 104, 116, 98, 101,
   114, 114, 121, 67, 111, 110, 100, 105, 116, 105, 111, 110, 0]

/-- The byte string `b"Randomizer\0"`, the randomizer-mod marker. -/
def randoMarker : List Nat :=
  [82, 97, 110, 100, 111, 109, 105, 122, 101, 114, 0]

example : spiritMarker = "SpiritGrenadeDamageDealer".data.map Char.toNat ++ [0] := by decide
example : nightberryMarker = "HoldingNightberryCondition".data.map Char.toNat ++ [0] := by decide
example : randoMarker = "Randomizer".data.map Char.toNat ++ [0] := by decide

/-- ASCII digit test, the `\d` byte class of the version regex. -/
def isDigitByte (b : Nat) : Bool := 48 ≤ b && b ≤ 57

/-- Greedy consumption of `(?:\d\x00)+`-pairs: returns the consumed
bytes and the rest.  Greedy matching is exact here (no backtracking can
produce a different overall match) because a digit byte can never start
the follow-up patterns `\.\x00` or `\x00`. -/
def takePairs : List Nat → List Nat × List Nat
  | d :: z :: rest =>
    if isDigitByte d && z == 0 then
      let p := takePairs rest
      (d :: z :: p.1, p.2)
    else ([], d :: z :: rest)
  | l => ([], l)

/-- One match of the version regex
`(?-u).((?:\d\x00)+)\.\x00((?:\d\x00)+)\.\x00((?:\d\x00)+)\x00`:
the full matched bytes and the three captured digit-run groups. -/
structure RawMatch where
  full : List Nat
  g1 : List Nat
  g2 : List Nat
  g3 : List Nat
deriving DecidableEq, Repr

/-- Try to match the version regex at the head of `l`; on success
return the match and the remaining suffix after it.  `.` matches any
byte except `\n` (byte 10) in the non-unicode mode the source uses. -/
def matchAt : List Nat → Option (RawMatch × List Nat)
  | [] => none
  | c :: rest =>
    if c == 10 then none else
    if (takePairs rest).1.isEmpty then none else
    match (takePairs rest).2 with
    | 46 :: 0 :: r2 =>
      if (takePairs r2).1.isEmpty then none else
      match (takePairs r2).2 with
      | 46 :: 0 :: r4 =>
        if (takePairs r4).1.isEmpty then none else
        match (takePairs r4).2 with
        | 0 :: r6 =>
          some ({ full := c :: ((takePairs rest).1 ++ [46, 0] ++ (takePairs r2).1 ++
                                [46, 0] ++ (takePairs r4).1 ++ [0]),
                  g1 := (takePairs rest).1, g2 := (takePairs r2).1,
                  g3 := (takePairs r4).1 }, r6)
        | _ => none
      | _ => none
    | _ => none

theorem takePairs_rest_le : ∀ l : List Nat, (takePairs l).2.length ≤ l.length
  | [] => by simp [takePairs]
  | [d] => by simp [takePairs]
  | d :: z :: rest => by
    unfold takePairs
    by_cases h : (isDigitByte d && z == 0) = true
    · simp only [h, if_true]
      have := takePairs_rest_le rest
      simp only [List.length_cons]
      omega
    · simp only [Bool.not_eq_true] at h
      simp [h]

theorem matchAt_rest_lt {l : List Nat} {m : RawMatch} {r : List Nat}
    (h : matchAt l = some (m, r)) : r.length < l.length := by
  cases l with
  | nil => simp [matchAt] at h
  | cons c rest =>
    simp only [matchAt] at h
    repeat' split at h
    any_goals exact Option.noConfusion h
    rename_i hc hp1 s1 u1 e1 hp2 s2 u2 e2 hp3 s3 u3 e3
    have w1 := takePairs_rest_le rest
    have w2 := takePairs_rest_le u1
    have w3 := takePairs_rest_le u2
    rw [e1] at w1
    rw [e2] at w2
    rw [e3] at w3
    simp only [List.length_cons] at w1 w2 w3 ⊢
    cases h
    omega

/-- The scan loop of `captures_iter`, with a fuel argument to make the
recursion structural (`findMatchesGo_congr` below shows any fuel of at
least the list length gives the same result, so the fuel is not part of
the semantics): try to match at each position, and continue after the
end of each match. -/
def findMatchesGo : Nat → List Nat → List RawMatch
  | 0, _ => []
  | _ + 1, [] => []
  | fuel + 1, c :: rest =>
    match matchAt (c :: rest) with
    | some (m, remaining) => m :: findMatchesGo fuel remaining
    | none => findMatchesGo fuel rest

/-- `captures_iter` of the version regex: all non-overlapping matches,
leftmost first (match at the earliest position, continue after the end
of each match; every match consumes at least one byte, so a fuel of the
list length never runs out). -/
def findMatches (l : List Nat) : List RawMatch := findMatchesGo l.length l

theorem findMatchesGo_congr :
    ∀ (f1 f2 : Nat) (l : List Nat), l.length ≤ f1 → l.length ≤ f2 →
      findMatchesGo f1 l = findMatchesGo f2 l := by
  intro f1
  induction f1 with
  | zero =>
    intro f2 l h1 h2
    have : l = [] := List.length_eq_zero.mp (Nat.le_zero.mp h1)
    subst this
    cases f2 <;> simp [findMatchesGo]
  | succ f1 ih =>
    intro f2 l h1 h2
    cases l with
    | nil => cases f2 <;> simp [findMatchesGo]
    | cons c rest =>
      cases f2 with
      | zero => simp at h2
      | succ f2 =>
        simp only [findMatchesGo]
        cases hm : matchAt (c :: rest) with
        | none =>
          simp only [List.length_cons] at h1 h2
          show findMatchesGo f1 rest = findMatchesGo f2 rest
          exact ih f2 rest (by omega) (by omega)
        | some pr =>
          obtain ⟨m, remaining⟩ := pr
          have hlt := matchAt_rest_lt hm
          simp only [List.length_cons] at h1 h2 hlt
          show m :: findMatchesGo f1 remaining = m :: findMatchesGo f2 remaining
          rw [ih f2 remaining (by omega) (by omega)]

/-- `u64::checked_mul`. -/
def checked_mul64 (a b : Nat) : Option Nat :=
  if a * b < 18446744073709551616 then some (a * b) else none

/-- `u64::checked_add`. -/
def checked_add64 (a b : Nat) : Option Nat :=
  if a + b < 18446744073709551616 then some (a + b) else none

/-- Loop of `parse_trusted_utf16_number`: visits every other byte
(`step_by(2)`), computes `byte - b'0'` in wrapping `u8` arithmetic, and
accumulates base-10 with checked `u64` arithmetic. -/
def ptunGo : List Nat → Nat → Option Nat
  | [], number => some number
  | b :: rest, number =>
    match checked_mul64 number 10 with
    | none => none
    | some m =>
    match checked_add64 m ((b + 208) % 256) with
    | none => none
    | some n2 =>
      match rest with
      | [] => some n2
      | _ :: rest2 => ptunGo rest2 n2

/-- `parse_trusted_utf16_number` of `dll_classifier.rs`. -/
def parse_trusted_utf16_number (bytes : List Nat) : Option Nat :=
  ptunGo bytes 0

/-- The `filter_map` body of `extract_rando_version`: reject the match
unless its length-prefix byte equals `full.len() - 1`, then parse the
three digit runs (discarding the candidate on arithmetic overflow). -/
def versionOfMatch (m : RawMatch) : Option RandoVersion :=
  match m.full with
  | [] => none
  | lenByte :: _ =>
    if lenByte ≠ m.full.length - 1 then none
    else
      match parse_trusted_utf16_number m.g1 with
      | none => none
      | some major =>
      match parse_trusted_utf16_number m.g2 with
      | none => none
      | some minor =>
      match parse_trusted_utf16_number m.g3 with
      | none => none
      | some patch => some { major := major, minor := minor, patch := patch }

/-- The derived lexicographic `Ord` of `RandoVersion`, as a Boolean
`≤`. -/
def rvLe (a b : RandoVersion) : Bool :=
  a.major < b.major ||
    (a.major == b.major &&
      (a.minor < b.minor || (a.minor == b.minor && a.patch ≤ b.patch)))

/-- One step of `Iterator::max`: keep the larger, the newer element
winning ties. -/
def maxStep (acc : Option RandoVersion) (v : RandoVersion) : Option RandoVersion :=
  match acc with
  | none => some v
  | some a => some (if rvLe a v then v else a)

/-- `Iterator::max` over `RandoVersion`: fold keeping the maximum, the
later element winning ties. -/
def iterMax (l : List RandoVersion) : Option RandoVersion :=
  l.foldl maxStep none

/-- The accepted version candidates of a user-string heap: every regex
match, filtered through the length-prefix check and digit parsing. -/
def versionMatches (usHeap : List Nat) : List RandoVersion :=
  (findMatches usHeap).filterMap versionOfMatch

/-- `extract_rando_version` of `dll_classifier.rs`. -/
def extract_rando_version (usHeap : List Nat) : Option RandoVersion :=
  iterMax (versionMatches usHeap)

/-! ## `compute_hash`: `DefaultHasher` is SipHash-1-3 with both keys 0 -/

/-- Truncation to 64 bits. -/
def wrap64 (x : Nat) : Nat := x % 18446744073709551616

/-- 64-bit left rotation (on values `< 2^64`). -/
def rotl64 (x r : Nat) : Nat :=
  (x <<< r) % 18446744073709551616 ||| x >>> (64 - r)

/-- The four 64-bit state words of SipHash. -/
structure SipState where
  v0 : Nat
  v1 : Nat
  v2 : Nat
  v3 : Nat
deriving DecidableEq, Repr

/-- One SipHash round. -/
def sipRound (s : SipState) : SipState :=
  let v0 := wrap64 (s.v0 + s.v1)
  let v1 := rotl64 s.v1 13
  let v1 := v1 ^^^ v0
  let v0 := rotl64 v0 32
  let v2 := wrap64 (s.v2 + s.v3)
  let v3 := rotl64 s.v3 16
  let v3 := v3 ^^^ v2
  let v0 := wrap64 (v0 + v3)
  let v3 := rotl64 v3 21
  let v3 := v3 ^^^ v0
  let v2 := wrap64 (v2 + v1)
  let v1 := rotl64 v1 17
  let v1 := v1 ^^^ v2
  let v2 := rotl64 v2 32
  ⟨v0, v1, v2, v3⟩

/-- Absorb one 64-bit message word (SipHash-1-3: one round per word). -/
def sipCompress (s : SipState) (m : Nat) : SipState :=
  let s1 := sipRound { s with v3 := s.v3 ^^^ m }
  { s1 with v0 := s1.v0 ^^^ m }

/-- Little-endian value of a byte list (each byte taken mod 256, as in
the `u8` buffer of the source). -/
def leWord : List Nat → Nat
  | [] => 0
  | b :: rest => b % 256 + 256 * leWord rest

/-- SipHash-1-3 finalization as in Rust libstd: absorb the final block
`(len % 256) << 56 | tail`, then `v2 ^= 0xff`, three rounds, and the
XOR of the state words. -/
def sipFinish (s : SipState) (tail : List Nat) (len : Nat) : Nat :=
  let b := wrap64 (leWord tail + (len % 256) * 72057594037927936)
  let s1 := sipCompress s b
  let s2 := { s1 with v2 := s1.v2 ^^^ 255 }
  let s3 := sipRound (sipRound (sipRound s2))
  s3.v0 ^^^ s3.v1 ^^^ s3.v2 ^^^ s3.v3

/-- Process the message in 8-byte little-endian words, then finalize
with the remaining tail. -/
def sipProcess : SipState → List Nat → Nat → Nat
  | s, b0 :: b1 :: b2 :: b3 :: b4 :: b5 :: b6 :: b7 :: rest, len =>
    sipProcess (sipCompress s (leWord [b0, b1, b2, b3, b4, b5, b6, b7])) rest len
  | s, tail, len => sipFinish s tail len

/-- `compute_hash` of `dll_classifier.rs`: `DefaultHasher::new()` (the
SipHash-1-3 keys are 0, so the initial state words are the SipHash
constants), one `write` of the whole buffer, then `finish`. -/
def compute_hash (value : List Nat) : Nat :=
  sipProcess
    ⟨0x736F6D6570736575, 0x646F72616E646F6D,
     0x6C7967656E657261, 0x7465646279746573⟩
    value value.length

/-! ## `classify_dll` -/

/-- `classify_dll` of `dll_classifier.rs`.  A parse failure demotes the
file to `Invalid`; a parser panic would propagate (it is proved
impossible below). -/
def classify_dll (fileData : List Nat) : PResult DllClassification :=
  match parse_dll fileData with
  | .panic => .panic
  | .err _ => .ok .Invalid
  | .ok heaps =>
    if containsSeq spiritMarker heaps.strings = false then
      .ok (if containsSeq nightberryMarker heaps.strings then .NonDe else .Invalid)
    else if containsSeq randoMarker heaps.strings = false then
      .ok .Vanilla
    else
      match extract_rando_version heaps.us with
      | some v => .ok (.Rando v)
      | none => .ok (.UnknownRando (compute_hash fileData))

/-- The value of `classify_dll` (total by `classify_dll_isOk`; the
`Invalid` fallbacks are unreachable). -/
def classifyDllRun (fileData : List Nat) : DllClassification :=
  match classify_dll fileData with
  | .ok c => c
  | .err _ => .Invalid
  | .panic => .Invalid

theorem classify_dll_isOk (d : List Nat) : ∃ c, classify_dll d = .ok c := by
  unfold classify_dll
  split
  · rename_i heq
    exact absurd heq (parse_dll_no_panic d)
  · exact ⟨.Invalid, rfl⟩
  · repeat' split
    all_goals exact ⟨_, rfl⟩

theorem classify_dll_run_eq (d : List Nat) :
    classify_dll d = .ok (classifyDllRun d) := by
  obtain ⟨c, hc⟩ := classify_dll_isOk d
  unfold classifyDllRun
  rw [hc]

/-! ## Fleet manager (`dll_management.rs`)

Paths are modelled as `String` (joined with `"/"`); the filesystem
effects are abstracted into explicit inputs: the result of reading the
install-target path, an `existsAt` oracle for the collision check of
the backup name, and an `rng` stream for the random suffix. -/

/-- `OriDllKind` of `dll_management.rs`; the derived Rust `Ord` orders
`Vanilla < Rando (lexicographic) < UnknownRando (by hash)`. -/
inductive OriDllKind where
  | Vanilla
  | Rando : RandoVersion → OriDllKind
  | UnknownRando : Nat → OriDllKind
deriving DecidableEq, Repr

/-- `OriDll` of `dll_management.rs`. -/
structure OriDll where
  kind : OriDllKind
  path : String
  display_name : String
deriving DecidableEq, Repr

/-- `path.file_name()` (last path component, empty for none). -/
def fileName (path : String) : String := (path.splitOn "/").getLastD ""

/-- `OriDll::new`: `Invalid` and `NonDe` files are discarded. -/
def OriDll.new (path : String) (classification : DllClassification) : Option OriDll :=
  match classification with
  | .Invalid => none
  | .NonDe => none
  | .Vanilla => some { kind := .Vanilla, path := path, display_name := fileName path }
  | .Rando v => some { kind := .Rando v, path := path, display_name := fileName path }
  | .UnknownRando h =>
    some { kind := .UnknownRando h, path := path, display_name := fileName path }

/-- `GameDir::new`: the managed directory `<root>/oriDE_Data/Managed`. -/
def gameDirManaged (gameDir : String) : String :=
  gameDir ++ "/oriDE_Data" ++ "/Managed"

/-- The structural-identity match used by `should_backup_target`. -/
def kindMatchesClassification (k : OriDllKind) (c : DllClassification) : Bool :=
  match k, c with
  | .Vanilla, .Vanilla => true
  | .Rando a, .Rando b => a == b
  | .UnknownRando a, .UnknownRando b => a == b
  | _, _ => false

/-- `should_backup_target` of `dll_management.rs`: back up unless some
other known entry (different path) has a structurally equal identity. -/
def should_backup_target (target : String) (targetClassification : DllClassification)
    (allDlls : List OriDll) : Bool :=
  !((allDlls.filter (fun dll => dll.path != target)).any
      (fun dll => kindMatchesClassification dll.kind targetClassification))

/-- The 62 characters of the `Alphanumeric` distribution. -/
def alphanumericChars : List Char :=
  "ABCDEFGHIJKLMNOPQRSTUVWXYZabcdefghijklmnopqrstuvwxyz0123456789".data

/-- `Alphanumeric.sample_string(rng, len)`: `len` uniformly sampled
alphanumeric characters, modelled over an abstract `rng` stream. -/
def sample_string (rng : Nat → Nat) (len : Nat) : String :=
  String.mk ((List.range len).map (fun i => alphanumericChars.getD (rng i % 62) 'A'))

/-- The `Display` form `{major}.{minor}.{patch}` of `RandoVersion`. -/
def rvDisplay (v : RandoVersion) : String :=
  toString v.major ++ "." ++ toString v.minor ++ "." ++ toString v.patch

/-- `unique_name_for_dll` of `dll_management.rs`: a deterministic name
from the outgoing classification kind; only when that exact path
already exists (or the existence check fails) is a random 10-character
alphanumeric disambiguator inserted before the `.dll` extension. -/
def unique_name_for_dll (targetDir : String) (existsAt : String → Option Bool)
    (rng : Nat → Nat) (dll : DllClassification) : String :=
  let targetName :=
    match dll with
    | .Vanilla => "Assembly-CSharp.vanilla"
    | .UnknownRando _ => "Assembly-CSharp.rando"
    | .Rando v => "Assembly-CSharp.rando." ++ rvDisplay v
    | _ => "Assembly-CSharp.unknown"
  let targetPath := targetDir ++ "/" ++ (targetName ++ ".dll")
  if existsAt targetPath == some false then targetPath
  else targetDir ++ "/" ++ (targetName ++ "." ++ sample_string rng 10 ++ ".dll")

/-- Outcome of opening/classifying the file at the install target. -/
inductive IoFail where
  | notFound
  | other : String → IoFail
deriving DecidableEq, Repr

/-- `prepare_target` of `dll_management.rs`, with the filesystem read
of the target path supplied as `targetRead`.  Returns the install
target path together with the backup destination when (and only when)
the backup rename is performed; a missing target file is the
first-install case, any other classification failure aborts. -/
def prepare_target (managed : String) (targetRead : Except IoFail (List Nat))
    (existsAt : String → Option Bool) (rng : Nat → Nat) (allDlls : List OriDll) :
    Except String (String × Option String) :=
  let target := managed ++ "/" ++ "Assembly-CSharp.dll"
  match targetRead with
  | .error .notFound => .ok (target, none)
  | .error (.other e) => .error ("Failed to classify target: " ++ e)
  | .ok bytes =>
    if should_backup_target target (classifyDllRun bytes) allDlls then
      .ok (target, some (unique_name_for_dll managed existsAt rng (classifyDllRun bytes)))
    else .ok (target, none)

/-- `Vec::swap` (both indices are in bounds at the call site in
`sort_and_filter_duplicates`; Rust panics otherwise). -/
def listSwap (l : List OriDll) (i j : Nat) : List OriDll :=
  match l[i]?, l[j]? with
  | some a, some b => (l.set i b).set j a
  | _, _ => l

/-- The derived `Ord` of `OriDllKind` as a Boolean `≤`: variant order
first, then the payload (`RandoVersion` lexicographic, hash `≤`). -/
def kindLe (a b : OriDllKind) : Bool :=
  match a, b with
  | .Vanilla, _ => true
  | .Rando _, .Vanilla => false
  | .Rando va, .Rando vb => rvLe va vb
  | .Rando _, .UnknownRando _ => true
  | .UnknownRando _, .Vanilla => false
  | .UnknownRando _, .Rando _ => false
  | .UnknownRando x, .UnknownRando y => decide (x ≤ y)

/-- `same_as_previous` of `dll_management.rs`: structural equality of
the new kind with the previous one (`false` for the first element);
the caller threads the previous kind through the fold. -/
def same_as_previous (previous : Option OriDllKind) (new : OriDllKind) : Bool :=
  match previous with
  | some prev =>
    match prev, new with
    | .Vanilla, .Vanilla => true
    | .Rando a, .Rando b => a == b
    | .UnknownRando a, .UnknownRando b => a == b
    | _, _ => false
  | none => false

/-- The dedup filter of `sort_and_filter_duplicates`: drop every
element structurally equal to its immediate predecessor. -/
def filterDup (prev : Option OriDllKind) : List OriDll → List OriDll
  | [] => []
  | d :: rest =>
    if same_as_previous prev d.kind then filterDup (some d.kind) rest
    else d :: filterDup (some d.kind) rest

/-- `sort_and_filter_duplicates` of `dll_management.rs`: move the
current entry (if any) to the end, stable-sort by kind, drop adjacent
structural duplicates. -/
def sort_and_filter_duplicates (dlls : List OriDll) (currentIdx : Option Nat) :
    List OriDll :=
  let moved :=
    match currentIdx with
    | none => dlls
    | some i => listSwap dlls i (dlls.length - 1)
  filterDup none (moved.mergeSort (fun a b => kindLe a.kind b.kind))

/-- One directory entry as seen by the scan: its path and the result
of opening + memory-mapping it for classification. -/
structure DirEntry where
  path : String
  read : Except String (List Nat)
deriving Repr

/-- The `filter_map`/`collect` pipeline of `search_game_dir` over the
directory listing (the parallel scan is modelled sequentially; the
stated properties do not depend on merge order).  A listing failure
becomes an error of the whole collect; a failure to open/classify one
file drops only that file; `Invalid`/`NonDe` files are discarded. -/
def scanEntries : List (Except String DirEntry) → Except String (List OriDll)
  | [] => .ok []
  | .error e :: _ => .error ("Could not list dll file: " ++ e)
  | .ok entry :: rest =>
    match entry.read with
    | .error _ => scanEntries rest
    | .ok bytes =>
      match OriDll.new entry.path (classifyDllRun bytes) with
      | none => scanEntries rest
      | some dll =>
        match scanEntries rest with
        | .error e => .error e
        | .ok dlls => .ok (dll :: dlls)

/-- `search_game_dir` of `dll_management.rs`, over an abstract
directory listing: scan, locate the currently installed entry, then
dedup and sort. -/
def search_game_dir (managed : String)
    (listing : Except String (List (Except String DirEntry))) :
    Except String (Option OriDll × List OriDll) :=
  match listing with
  | .error e => .error ("Could not read ori dll dir: " ++ e)
  | .ok entries =>
    match scanEntries entries with
    | .error e => .error e
    | .ok allDlls =>
      let installedPath := managed ++ "/" ++ "Assembly-CSharp.dll"
      let currentIdx := allDlls.findIdx? (fun dll => dll.path == installedPath)
      let current := currentIdx.bind (fun i => allDlls[i]?)
      .ok (current, sort_and_filter_duplicates allDlls currentIdx)

/-! ## A concrete minimal PE/CLI fixture

A 536-byte image with one section (RVA `0x1000` ↦ file offset 344,
size 192), a CLI header at RVA `0x1000`, the metadata root at RVA
`0x1010`, and a stream directory exposing `#Strings` (48 bytes) and
`#US` (32 bytes) whose contents are the two parameters, zero-padded. -/

/-- Two little-endian bytes. -/
def le16 (v : Nat) : List Nat := [v % 256, v / 256 % 256]

/-- Four little-endian bytes. -/
def le32 (v : Nat) : List Nat :=
  [v % 256, v / 256 % 256, v / 65536 % 256, v / 16777216 % 256]

/-- `n` zero bytes. -/
def zeros (n : Nat) : List Nat := List.replicate n 0

/-- Zero-pad a byte list to length `n`. -/
def padTo (n : Nat) (l : List Nat) : List Nat := l ++ zeros (n - l.length)

/-- The fixture image with strings heap `s` and user-string heap `u`. -/
def mkFixture (s u : List Nat) : List Nat :=
  zeros 60 ++ le32 64 ++                -- DOS stub, lfanew = 64
  [80, 69, 0, 0] ++ zeros 2 ++ le16 1 ++ zeros 12 ++ le16 212 ++ zeros 2 ++
  zeros 208 ++ le32 4096 ++             -- optional header, CLI RVA at +208
  zeros 8 ++ le32 192 ++ le32 4096 ++ le32 192 ++ le32 344 ++ zeros 16 ++
  zeros 4 ++
  zeros 8 ++ le32 4112 ++ zeros 4 ++    -- CLI header, metadata RVA 0x1010
  [66, 83, 74, 66] ++ zeros 8 ++ le32 4 ++ zeros 4 ++ zeros 2 ++ le16 2 ++
  le32 64 ++ le32 48 ++ [35, 83, 116, 114, 105, 110, 103, 115, 0, 0, 0, 0] ++
  le32 112 ++ le32 32 ++ [35, 85, 83, 0] ++
  zeros 8 ++
  padTo 48 s ++ padTo 32 u ++ zeros 32

/-! ## Claim theorems -/

/-- C1: for every input byte buffer, including truncated and
adversarial ones, `parse_dll` returns either the two heap views or a
typed parse error — it never panics (never reads out of bounds through
its unchecked slice operations); in particular, for every prefix length
of any buffer, parsing the truncated buffer yields a value (`ok` or
`err`), never a crash. -/
theorem c1_parse_never_panics (data : List Nat) :
    parse_dll data ≠ .panic ∧
    ((∃ heaps, parse_dll data = .ok heaps) ∨ (∃ e, parse_dll data = .err e)) ∧
    (∀ k, parse_dll (data.take k) ≠ .panic) := by
  refine ⟨parse_dll_no_panic data, ?_, fun k => parse_dll_no_panic (data.take k)⟩
  cases h : parse_dll data with
  | ok heaps => exact .inl ⟨heaps, rfl⟩
  | err e => exact .inr ⟨e, rfl⟩
  | panic => exact absurd h (parse_dll_no_panic data)

/-- C2: for every byte buffer, a parse failure classifies as `Invalid`;
when parsing succeeds and the strings heap lacks the definitive-edition
marker, the classification is `NonDe` if the legacy-edition marker is
present and `Invalid` otherwise; when the definitive-edition marker is
present but the randomizer marker is absent, the classification is
`Vanilla`. -/
theorem c2_marker_rules (d : List Nat) :
    (∀ e, parse_dll d = .err e → classify_dll d = .ok .Invalid) ∧
    (∀ heaps, parse_dll d = .ok heaps →
      containsSeq spiritMarker heaps.strings = false →
      classify_dll d =
        .ok (if containsSeq nightberryMarker heaps.strings then .NonDe else .Invalid)) ∧
    (∀ heaps, parse_dll d = .ok heaps →
      containsSeq spiritMarker heaps.strings = true →
      containsSeq randoMarker heaps.strings = false →
      classify_dll d = .ok .Vanilla) := by
  refine ⟨?_, ?_, ?_⟩
  · intro e he
    simp [classify_dll, he]
  · intro heaps hp hsp
    simp [classify_dll, hp, hsp]
  · intro heaps hp hsp hr
    simp [classify_dll, hp, hsp, hr]

set_option maxRecDepth 8000 in
/-- Witness for C2 at concrete inputs: the empty buffer fails to parse
and is `Invalid`; a fixture with neither marker is `Invalid`; one with
only the legacy marker is `NonDe`; one with the definitive marker but
no randomizer marker is `Vanilla`. -/
theorem c2_marker_rules_witness :
    classify_dll [] = .ok .Invalid ∧
    classify_dll (mkFixture [] []) = .ok .Invalid ∧
    classify_dll (mkFixture nightberryMarker []) = .ok .NonDe ∧
    classify_dll (mkFixture spiritMarker []) = .ok .Vanilla := by
  refine ⟨(c2_marker_rules []).1 "EOF lfanew" (by decide), ?_, ?_, ?_⟩
  · have h := (c2_marker_rules (mkFixture [] [])).2.1
      { strings := padTo 48 [], us := padTo 32 [] } (by decide) (by decide)
    rw [h]
    decide
  · have h := (c2_marker_rules (mkFixture nightberryMarker [])).2.1
      { strings := padTo 48 nightberryMarker, us := padTo 32 [] } (by decide) (by decide)
    rw [h]
    decide
  · exact (c2_marker_rules (mkFixture spiritMarker [])).2.2
      { strings := padTo 48 spiritMarker, us := padTo 32 [] } (by decide) (by decide)
      (by decide)

theorem scanEntries_drop (p e : String) (es2 : List (Except String DirEntry)) :
    ∀ es1 : List (Except String DirEntry),
      scanEntries (es1 ++ .ok ⟨p, .error e⟩ :: es2) = scanEntries (es1 ++ es2)
  | [] => by simp [scanEntries]
  | x :: rest => by
    cases x with
    | error e2 => simp [scanEntries]
    | ok entry =>
      simp only [List.cons_append, scanEntries, List.append_eq]
      rw [scanEntries_drop p e es2 rest]

theorem scanEntries_err (msg : String) (es2 : List (Except String DirEntry)) :
    ∀ es1 : List (Except String DirEntry),
      ∃ e2, scanEntries (es1 ++ .error msg :: es2) = .error e2
  | [] => ⟨"Could not list dll file: " ++ msg, by simp [scanEntries]⟩
  | x :: rest => by
    cases x with
    | error e2 => exact ⟨"Could not list dll file: " ++ e2, by simp [scanEntries]⟩
    | ok entry =>
      obtain ⟨e2, he⟩ := scanEntries_err msg es2 rest
      simp only [List.cons_append, scanEntries, List.append_eq]
      rw [he]
      refine ⟨e2, ?_⟩
      repeat' split
      all_goals simp_all

/-- C9: an I/O failure while opening or classifying one candidate file
(an `ok` directory entry whose read fails) only drops that file: the
scan result — both the current entry and the catalog — is exactly the
one obtained without that entry, and in particular the scan never
fails because of it. -/
theorem c9_per_file_failure_nonfatal (managed p e : String)
    (es1 es2 : List (Except String DirEntry)) :
    search_game_dir managed (.ok (es1 ++ .ok ⟨p, .error e⟩ :: es2)) =
      search_game_dir managed (.ok (es1 ++ es2)) := by
  simp only [search_game_dir]
  rw [scanEntries_drop p e es2 es1]

/-- C10: a failure of the directory enumeration itself (an `Err`
directory entry) aborts the whole scan with an error, unlike a per-file
classification failure. -/
theorem c10_listing_failure_fatal (managed msg : String)
    (es1 es2 : List (Except String DirEntry)) :
    ∃ e2, search_game_dir managed (.ok (es1 ++ .error msg :: es2)) = .error e2 := by
  obtain ⟨e2, he⟩ := scanEntries_err msg es2 es1
  simp only [search_game_dir]
  rw [he]
  exact ⟨e2, rfl⟩

theorem should_backup_spec (t : String) (c : DllClassification) (dlls : List OriDll) :
    should_backup_target t c dlls = true ↔
      ¬∃ dll ∈ dlls, dll.path ≠ t ∧ kindMatchesClassification dll.kind c = true := by
  simp [should_backup_target, List.any_eq_true, List.mem_filter, bne_iff_ne]

/-- C3: when the install target holds a classifiable file, the backup
rename is performed if and only if no known catalog entry at a path
other than the target has an identity structurally equal to the
target's classification — in particular, when the outgoing occupant's
identity matches another known entry, no backup is made. -/
theorem c3_backup_iff (managed : String) (bytes : List Nat)
    (existsAt : String → Option Bool) (rng : Nat → Nat) (allDlls : List OriDll) :
    (∃ nm, prepare_target managed (.ok bytes) existsAt rng allDlls =
        .ok (managed ++ "/" ++ "Assembly-CSharp.dll", some nm)) ↔
      ¬∃ dll ∈ allDlls, dll.path ≠ managed ++ "/" ++ "Assembly-CSharp.dll" ∧
        kindMatchesClassification dll.kind (classifyDllRun bytes) = true := by
  rw [← should_backup_spec]
  by_cases hb : should_backup_target (managed ++ "/" ++ "Assembly-CSharp.dll")
      (classifyDllRun bytes) allDlls = true
  · simp [prepare_target, hb]
  · simp [prepare_target, hb]

theorem alphanumericChars_getD_mem (n : Nat) :
    alphanumericChars.getD n 'A' ∈ alphanumericChars := by
  by_cases h : n < alphanumericChars.length
  · rw [List.getD_eq_getElem _ _ h]
    exact List.getElem_mem h
  · rw [List.getD_eq_default _ _ (Nat.le_of_not_lt h)]
    decide

/-- C8: the backup filename is derived deterministically from the
outgoing classification kind — `Assembly-CSharp.vanilla` for vanilla,
`Assembly-CSharp.rando.<version>` for versioned randomizer builds,
`Assembly-CSharp.rando` for unversioned ones, `Assembly-CSharp.unknown`
otherwise, with `.dll` appended; only when a file with that exact name
already exists is a 10-character alphanumeric random disambiguator
inserted before the `.dll` extension instead. -/
theorem c8_backup_filename (targetDir : String) (existsAt : String → Option Bool)
    (rng : Nat → Nat) (dll : DllClassification) :
    (sample_string rng 10).length = 10 ∧
    (∀ ch ∈ (sample_string rng 10).data, ch ∈ alphanumericChars) ∧
    ∀ base,
      base = (match dll with
        | .Vanilla => "Assembly-CSharp.vanilla"
        | .UnknownRando _ => "Assembly-CSharp.rando"
        | .Rando v => "Assembly-CSharp.rando." ++ rvDisplay v
        | _ => "Assembly-CSharp.unknown") →
      (existsAt (targetDir ++ "/" ++ (base ++ ".dll")) = some false →
        unique_name_for_dll targetDir existsAt rng dll =
          targetDir ++ "/" ++ (base ++ ".dll")) ∧
      (existsAt (targetDir ++ "/" ++ (base ++ ".dll")) ≠ some false →
        unique_name_for_dll targetDir existsAt rng dll =
          targetDir ++ "/" ++ (base ++ "." ++ sample_string rng 10 ++ ".dll")) := by
  refine ⟨?_, ?_, ?_⟩
  · simp [sample_string, String.length]
  · intro ch hch
    simp only [sample_string, List.mem_map, List.mem_range] at hch
    obtain ⟨i, _, rfl⟩ := hch
    exact alphanumericChars_getD_mem (rng i % 62)
  · intro base hbase
    subst hbase
    cases dll <;> refine ⟨fun h => ?_, fun h => ?_⟩ <;>
      (try simp at h) <;> simp [unique_name_for_dll, h]

/-- Witness for C8: with a vanilla outgoing build and no name
collision, the backup name is the deterministic one; with a collision,
the random suffix is inserted before the extension. -/
theorem c8_backup_filename_witness :
    unique_name_for_dll "dir" (fun _ => some false) (fun _ => 0) .Vanilla =
      "dir" ++ "/" ++ ("Assembly-CSharp.vanilla" ++ ".dll") ∧
    unique_name_for_dll "dir" (fun _ => some true) (fun _ => 0) .Vanilla =
      "dir" ++ "/" ++
        ("Assembly-CSharp.vanilla" ++ "." ++ sample_string (fun _ => 0) 10 ++ ".dll") := by
  constructor
  · exact ((c8_backup_filename "dir" (fun _ => some false) (fun _ => 0) .Vanilla).2.2
      _ rfl).1 rfl
  · exact ((c8_backup_filename "dir" (fun _ => some true) (fun _ => 0) .Vanilla).2.2
      _ rfl).2 (by simp)

/-! ## Lemmas for the version-extraction claims -/

theorem rvLe_refl (a : RandoVersion) : rvLe a a = true := by
  simp [rvLe]

theorem rvLe_total (a b : RandoVersion) : rvLe a b = true ∨ rvLe b a = true := by
  simp [rvLe]
  omega

theorem rvLe_trans {a b c : RandoVersion} (h1 : rvLe a b = true) (h2 : rvLe b c = true) :
    rvLe a c = true := by
  simp [rvLe] at h1 h2 ⊢
  omega

theorem foldl_maxStep_spec :
    ∀ (l : List RandoVersion) (a v : RandoVersion),
      l.foldl maxStep (some a) = some v →
      (v = a ∨ v ∈ l) ∧ rvLe a v = true ∧ ∀ w ∈ l, rvLe w v = true := by
  intro l
  induction l with
  | nil =>
    intro a v h
    simp only [List.foldl_nil, Option.some.injEq] at h
    subst h
    exact ⟨.inl rfl, rvLe_refl a, by simp⟩
  | cons x xs ih =>
    intro a v h
    simp only [List.foldl_cons, maxStep] at h
    by_cases hax : rvLe a x = true
    · rw [if_pos hax] at h
      obtain ⟨hm, hx, hall⟩ := ih x v h
      refine ⟨?_, ?_, ?_⟩
      · rcases hm with rfl | hm
        · exact .inr (List.mem_cons_self _ _)
        · exact .inr (List.mem_cons_of_mem x hm)
      · exact rvLe_trans hax hx
      · intro w hw
        rcases List.mem_cons.mp hw with rfl | hw
        · exact hx
        · exact hall w hw
    · rw [if_neg hax] at h
      obtain ⟨hm, ha, hall⟩ := ih a v h
      refine ⟨?_, ha, ?_⟩
      · rcases hm with rfl | hm
        · exact .inl rfl
        · exact .inr (List.mem_cons_of_mem x hm)
      · intro w hw
        rcases List.mem_cons.mp hw with rfl | hw
        · have hwa : rvLe w a = true := (rvLe_total a w).resolve_left hax
          exact rvLe_trans hwa ha
        · exact hall w hw

theorem iterMax_spec {l : List RandoVersion} {v : RandoVersion}
    (h : iterMax l = some v) : v ∈ l ∧ ∀ w ∈ l, rvLe w v = true := by
  cases l with
  | nil => simp [iterMax] at h
  | cons x xs =>
    have h' : xs.foldl maxStep (some x) = some v := h
    obtain ⟨hm, hx, hall⟩ := foldl_maxStep_spec xs x v h'
    refine ⟨?_, ?_⟩
    · rcases hm with rfl | hm
      · exact List.mem_cons_self _ _
      · exact List.mem_cons_of_mem x hm
    · intro w hw
      rcases List.mem_cons.mp hw with rfl | hw
      · exact hx
      · exact hall w hw

theorem versionOfMatch_check {m : RawMatch} {v : RandoVersion}
    (hv : versionOfMatch m = some v) : m.full.headD 0 = m.full.length - 1 := by
  obtain ⟨full, g1, g2, g3⟩ := m
  cases full with
  | nil => simp [versionOfMatch] at hv
  | cons lenByte tail =>
    simp only [versionOfMatch] at hv
    by_cases hch : lenByte ≠ (lenByte :: tail).length - 1
    · rw [if_pos hch] at hv
      exact Option.noConfusion hv
    · simp only [List.headD_cons]
      exact Decidable.not_not.mp hch

theorem versionOfMatch_reject {m : RawMatch}
    (h : m.full.headD 0 ≠ m.full.length - 1) : versionOfMatch m = none := by
  obtain ⟨full, g1, g2, g3⟩ := m
  cases full with
  | nil => simp [versionOfMatch]
  | cons lenByte tail =>
    simp only [List.headD_cons] at h
    simp only [versionOfMatch]
    rw [if_pos h]

/-- C5: whenever version extraction succeeds, its result is one of the
accepted version candidates of the heap and is maximal among all of
them under the lexicographic (major, minor, patch) order; and for the
concrete heap holding the two valid length-prefixed literals "1.0.0"
and "2.3.1", extraction selects (2, 3, 1). -/
theorem c5_version_maximum (usHeap : List Nat) :
    (∀ v, extract_rando_version usHeap = some v →
      v ∈ versionMatches usHeap ∧ ∀ w ∈ versionMatches usHeap, rvLe w v = true) ∧
    extract_rando_version
        ([11, 49, 0, 46, 0, 48, 0, 46, 0, 48, 0, 0] ++
         [11, 50, 0, 46, 0, 51, 0, 46, 0, 49, 0, 0]) =
      some { major := 2, minor := 3, patch := 1 } := by
  exact ⟨fun v hv => iterMax_spec hv, by decide⟩

/-- Witness for C5: at the concrete two-literal heap, the selected
version (2, 3, 1) is an accepted candidate and dominates every
accepted candidate. -/
theorem c5_version_maximum_witness :
    { major := 2, minor := 3, patch := 1 } ∈
      versionMatches ([11, 49, 0, 46, 0, 48, 0, 46, 0, 48, 0, 0] ++
        [11, 50, 0, 46, 0, 51, 0, 46, 0, 49, 0, 0]) ∧
    ∀ w ∈ versionMatches ([11, 49, 0, 46, 0, 48, 0, 46, 0, 48, 0, 0] ++
        [11, 50, 0, 46, 0, 51, 0, 46, 0, 49, 0, 0]),
      rvLe w { major := 2, minor := 3, patch := 1 } = true :=
  (c5_version_maximum ([11, 49, 0, 46, 0, 48, 0, 46, 0, 48, 0, 0] ++
      [11, 50, 0, 46, 0, 51, 0, 46, 0, 49, 0, 0])).1
    { major := 2, minor := 3, patch := 1 } (by decide)

/-- C6: a regex match contributes a version candidate only if its
length-prefix byte (the first byte of the full match) equals the byte
length of everything after it up to and including the terminating NUL
(`full.length - 1`); every match failing this check contributes no
version, and every accepted candidate arises from some match. -/
theorem c6_length_prefix_check (usHeap : List Nat) :
    (∀ m ∈ findMatches usHeap, ∀ v, versionOfMatch m = some v →
      m.full.headD 0 = m.full.length - 1) ∧
    (∀ m ∈ findMatches usHeap, m.full.headD 0 ≠ m.full.length - 1 →
      versionOfMatch m = none) ∧
    (∀ v ∈ versionMatches usHeap,
      ∃ m ∈ findMatches usHeap, versionOfMatch m = some v) := by
  refine ⟨fun m _ v hv => versionOfMatch_check hv,
          fun m _ h => versionOfMatch_reject h, ?_⟩
  intro v hv
  simpa [versionMatches, List.mem_filterMap] using hv

/-- The raw match produced by the heap below: a structurally valid
version pattern whose length-prefix byte is 5 instead of the correct
11 (`full.length - 1`). -/
def badPrefixMatch : RawMatch where
  full := [5, 49, 0, 46, 0, 50, 0, 46, 0, 51, 0, 0]
  g1 := [49, 0]
  g2 := [50, 0]
  g3 := [51, 0]

/-- Witness for C6: the heap holding a well-formed version pattern
whose length prefix is 5 instead of the correct 11 produces a raw
match that is rejected, and extraction finds no version at all. -/
theorem c6_length_prefix_check_witness :
    badPrefixMatch ∈ findMatches [5, 49, 0, 46, 0, 50, 0, 46, 0, 51, 0, 0] ∧
    versionOfMatch badPrefixMatch = none ∧
    extract_rando_version [5, 49, 0, 46, 0, 50, 0, 46, 0, 51, 0, 0] = none := by
  refine ⟨by decide, ?_, by decide⟩
  exact (c6_length_prefix_check [5, 49, 0, 46, 0, 50, 0, 46, 0, 51, 0, 0]).2.1
    badPrefixMatch (by decide) (by decide)

/-! ## Lemmas for the hash-fallback claim -/

/-- All four state words fit in 64 bits. -/
def SipState.Bounded (s : SipState) : Prop :=
  s.v0 < 18446744073709551616 ∧ s.v1 < 18446744073709551616 ∧
  s.v2 < 18446744073709551616 ∧ s.v3 < 18446744073709551616

theorem wrap64_lt (x : Nat) : wrap64 x < 18446744073709551616 :=
  Nat.mod_lt _ (by norm_num)

theorem xor64_lt {x y : Nat} (hx : x < 18446744073709551616)
    (hy : y < 18446744073709551616) : x ^^^ y < 18446744073709551616 := by
  have e64 : (18446744073709551616 : Nat) = 2 ^ 64 := by norm_num
  rw [e64] at hx hy ⊢
  exact Nat.xor_lt_two_pow hx hy

theorem rotl64_lt {x : Nat} (hx : x < 18446744073709551616) (r : Nat) :
    rotl64 x r < 18446744073709551616 := by
  have e64 : (18446744073709551616 : Nat) = 2 ^ 64 := by norm_num
  unfold rotl64
  rw [e64]
  refine Nat.or_lt_two_pow (Nat.mod_lt _ (by norm_num)) ?_
  rw [Nat.shiftRight_eq_div_pow]
  calc x / 2 ^ (64 - r) ≤ x := Nat.div_le_self _ _
  _ < 2 ^ 64 := by rw [← e64]; exact hx

theorem sipRound_bounded {s : SipState} (hb : s.Bounded) : (sipRound s).Bounded := by
  obtain ⟨h0, h1, h2, h3⟩ := hb
  simp only [sipRound, SipState.Bounded]
  refine ⟨?_, ?_, ?_, ?_⟩ <;>
    repeat first
      | assumption
      | exact wrap64_lt _
      | apply rotl64_lt
      | apply xor64_lt

theorem sipCompress_bounded {s : SipState} {m : Nat} (hb : s.Bounded)
    (hm : m < 18446744073709551616) : (sipCompress s m).Bounded := by
  obtain ⟨h0, h1, h2, h3⟩ := hb
  have hb2 : SipState.Bounded { s with v3 := s.v3 ^^^ m } :=
    ⟨h0, h1, h2, xor64_lt h3 hm⟩
  obtain ⟨g0, g1, g2, g3⟩ := sipRound_bounded hb2
  exact ⟨xor64_lt g0 hm, g1, g2, g3⟩

theorem sipFinish_lt (s : SipState) (tail : List Nat) (len : Nat) (hb : s.Bounded) :
    sipFinish s tail len < 18446744073709551616 := by
  have hm : wrap64 (leWord tail + (len % 256) * 72057594037927936) <
      18446744073709551616 := wrap64_lt _
  obtain ⟨a0, a1, a2, a3⟩ := sipCompress_bounded hb hm
  have h255 : (255 : Nat) < 18446744073709551616 := by norm_num
  have h2 : SipState.Bounded
      { sipCompress s (wrap64 (leWord tail + (len % 256) * 72057594037927936)) with
        v2 := (sipCompress s
          (wrap64 (leWord tail + (len % 256) * 72057594037927936))).v2 ^^^ 255 } :=
    ⟨a0, a1, xor64_lt a2 h255, a3⟩
  obtain ⟨g0, g1, g2, g3⟩ := sipRound_bounded (sipRound_bounded (sipRound_bounded h2))
  exact xor64_lt (xor64_lt (xor64_lt g0 g1) g2) g3

theorem leWord_lt : ∀ l : List Nat, leWord l < 256 ^ l.length
  | [] => by simp [leWord]
  | b :: rest => by
    have ih := leWord_lt rest
    have hb : b % 256 < 256 := Nat.mod_lt _ (by norm_num)
    have h2 : 256 * (leWord rest + 1) ≤ 256 * 256 ^ rest.length :=
      Nat.mul_le_mul_left _ ih
    simp only [leWord, List.length_cons, pow_succ]
    omega

theorem leWord8_lt (b0 b1 b2 b3 b4 b5 b6 b7 : Nat) :
    leWord [b0, b1, b2, b3, b4, b5, b6, b7] < 18446744073709551616 := by
  have := leWord_lt [b0, b1, b2, b3, b4, b5, b6, b7]
  norm_num at this
  exact this

theorem sipProcess_lt :
    ∀ (bytes : List Nat) (s : SipState) (len : Nat), s.Bounded →
      sipProcess s bytes len < 18446744073709551616
  | b0 :: b1 :: b2 :: b3 :: b4 :: b5 :: b6 :: b7 :: rest, _s, len, hb =>
    sipProcess_lt rest _ len
      (sipCompress_bounded hb (leWord8_lt b0 b1 b2 b3 b4 b5 b6 b7))
  | [], s, len, hb => sipFinish_lt s [] len hb
  | [b0], s, len, hb => sipFinish_lt s [b0] len hb
  | [b0, b1], s, len, hb => sipFinish_lt s [b0, b1] len hb
  | [b0, b1, b2], s, len, hb => sipFinish_lt s [b0, b1, b2] len hb
  | [b0, b1, b2, b3], s, len, hb => sipFinish_lt s [b0, b1, b2, b3] len hb
  | [b0, b1, b2, b3, b4], s, len, hb => sipFinish_lt s [b0, b1, b2, b3, b4] len hb
  | [b0, b1, b2, b3, b4, b5], s, len, hb =>
    sipFinish_lt s [b0, b1, b2, b3, b4, b5] len hb
  | [b0, b1, b2, b3, b4, b5, b6], s, len, hb =>
    sipFinish_lt s [b0, b1, b2, b3, b4, b5, b6] len hb

theorem compute_hash_lt (d : List Nat) : compute_hash d < 18446744073709551616 :=
  sipProcess_lt d _ _ ⟨by norm_num, by norm_num, by norm_num, by norm_num⟩

theorem classify_unknown_inv {d : List Nat} {h : Nat}
    (hc : classify_dll d = .ok (.UnknownRando h)) : h = compute_hash d := by
  unfold classify_dll at hc
  repeat' split at hc
  all_goals simp_all

/-- C7: `classify_dll` is deterministic (equal buffers classify
equally); whenever the fallback identity `UnknownRando h` is produced,
`h` is the 64-bit hash of the entire file buffer; hence identical
buffers receive identical fallback identities, and two buffers receive
the same fallback identity exactly when their hashes agree. -/
theorem c7_fallback_hash (d1 d2 : List Nat) :
    (d1 = d2 → classify_dll d1 = classify_dll d2) ∧
    (∀ h, classify_dll d1 = .ok (.UnknownRando h) →
      h = compute_hash d1 ∧ h < 18446744073709551616) ∧
    (∀ h1 h2, classify_dll d1 = .ok (.UnknownRando h1) →
      classify_dll d2 = .ok (.UnknownRando h2) →
      (h1 = h2 ↔ compute_hash d1 = compute_hash d2)) := by
  refine ⟨fun he => by rw [he], fun h hc => ⟨classify_unknown_inv hc, ?_⟩,
          fun h1 h2 hc1 hc2 => ?_⟩
  · rw [classify_unknown_inv hc]
    exact compute_hash_lt d1
  · rw [classify_unknown_inv hc1, classify_unknown_inv hc2]

set_option maxRecDepth 8000 in
/-- Witness for C7: the fixture carrying the definitive-edition and
randomizer markers but no version string classifies to the fallback
identity, which is the 64-bit whole-file hash. -/
theorem c7_fallback_hash_witness :
    compute_hash (mkFixture (spiritMarker ++ randoMarker) []) =
        compute_hash (mkFixture (spiritMarker ++ randoMarker) []) ∧
      compute_hash (mkFixture (spiritMarker ++ randoMarker) []) <
        18446744073709551616 :=
  (c7_fallback_hash (mkFixture (spiritMarker ++ randoMarker) [])
      (mkFixture (spiritMarker ++ randoMarker) [])).2.1
    (compute_hash (mkFixture (spiritMarker ++ randoMarker) [])) (by decide)

/-! ## Lemmas for the catalog-dedup claim -/

theorem rvLe_antisymm {a b : RandoVersion} (h1 : rvLe a b = true)
    (h2 : rvLe b a = true) : a = b := by
  obtain ⟨am, an, ap⟩ := a
  obtain ⟨bm, bn, bp⟩ := b
  simp [rvLe] at h1 h2 ⊢
  omega

theorem kindLe_trans {a b c : OriDllKind} (h1 : kindLe a b = true)
    (h2 : kindLe b c = true) : kindLe a c = true := by
  cases a <;> cases b <;> cases c <;> simp_all [kindLe]
  all_goals first
    | exact rvLe_trans ‹_› ‹_›
    | omega

theorem kindLe_total (a b : OriDllKind) : (kindLe a b || kindLe b a) = true := by
  cases a <;> cases b <;> simp [kindLe]
  all_goals first
    | exact rvLe_total _ _
    | omega

theorem kindLe_antisymm {a b : OriDllKind} (h1 : kindLe a b = true)
    (h2 : kindLe b a = true) : a = b := by
  cases a <;> cases b <;> simp_all [kindLe]
  all_goals first
    | exact rvLe_antisymm ‹_› ‹_›
    | omega

theorem same_as_previous_iff (p n : OriDllKind) :
    same_as_previous (some p) n = true ↔ p = n := by
  cases p <;> cases n <;> simp [same_as_previous]

theorem filterDup_sorted_aux :
    ∀ (l : List OriDll) (k : OriDllKind),
      l.Pairwise (fun a b => kindLe a.kind b.kind = true) →
      (∀ x ∈ l, kindLe k x.kind = true) →
      (filterDup (some k) l).Pairwise (fun a b => a.kind ≠ b.kind) ∧
      ∀ x ∈ filterDup (some k) l, kindLe k x.kind = true ∧ x.kind ≠ k := by
  intro l
  induction l with
  | nil => intro k _ _; exact ⟨List.Pairwise.nil, by simp [filterDup]⟩
  | cons d rest ih =>
    intro k hpw hall
    rw [List.pairwise_cons] at hpw
    obtain ⟨hd, hrest⟩ := hpw
    by_cases hsame : same_as_previous (some k) d.kind = true
    · have hdk : k = d.kind := (same_as_previous_iff k d.kind).mp hsame
      simp only [filterDup, if_pos hsame]
      rw [← hdk]
      exact ih k hrest (fun x hx => hall x (List.mem_cons_of_mem _ hx))
    · have hdk : k ≠ d.kind := fun he => hsame ((same_as_previous_iff k d.kind).mpr he)
      simp only [filterDup, if_neg hsame]
      obtain ⟨hpw2, hmem2⟩ := ih d.kind hrest hd
      constructor
      · rw [List.pairwise_cons]
        exact ⟨fun x hx he => (hmem2 x hx).2 he.symm, hpw2⟩
      · intro x hx
        rcases List.mem_cons.mp hx with rfl | hx2
        · exact ⟨hall _ (List.mem_cons_self _ _), fun he => hdk he.symm⟩
        · obtain ⟨hle, hne⟩ := hmem2 x hx2
          refine ⟨kindLe_trans (hall d (List.mem_cons_self _ _)) hle, fun he => ?_⟩
          rw [he] at hle
          exact hdk (kindLe_antisymm (hall d (List.mem_cons_self _ _)) hle)

theorem filterDup_sorted (l : List OriDll)
    (h : l.Pairwise (fun a b => kindLe a.kind b.kind = true)) :
    (filterDup none l).Pairwise (fun a b => a.kind ≠ b.kind) := by
  cases l with
  | nil => simp [filterDup]
  | cons d rest =>
    rw [List.pairwise_cons] at h
    have hred : filterDup none (d :: rest) = d :: filterDup (some d.kind) rest := by
      simp [filterDup, same_as_previous]
    rw [hred]
    obtain ⟨hpw2, hmem2⟩ := filterDup_sorted_aux rest d.kind h.2 h.1
    rw [List.pairwise_cons]
    exact ⟨fun x hx he => (hmem2 x hx).2 he.symm, hpw2⟩

/-- Five scan candidates classifying to Vanilla, Vanilla,
Versioned(1,0,0), Versioned(1,0,0) and UnversionedKnown(7). -/
def fiveCandidates : List OriDll :=
  [ { kind := .Vanilla, path := "a.dll", display_name := "a.dll" },
    { kind := .Vanilla, path := "b.dll", display_name := "b.dll" },
    { kind := .Rando { major := 1, minor := 0, patch := 0 }, path := "c.dll",
      display_name := "c.dll" },
    { kind := .Rando { major := 1, minor := 0, patch := 0 }, path := "d.dll",
      display_name := "d.dll" },
    { kind := .UnknownRando 7, path := "e.dll", display_name := "e.dll" } ]

theorem sort_and_filter_pairwise (dlls : List OriDll) (currentIdx : Option Nat) :
    (sort_and_filter_duplicates dlls currentIdx).Pairwise
      (fun a b => a.kind ≠ b.kind) := by
  unfold sort_and_filter_duplicates
  apply filterDup_sorted
  apply List.sorted_mergeSort
  · exact fun a b c h1 h2 => kindLe_trans h1 h2
  · exact fun a b => kindLe_total a.kind b.kind

/-- C4: the deduplicated catalog contains no two entries with
structurally equal identities — both for `sort_and_filter_duplicates`
on every input, and for the catalog of every successful
`search_game_dir` scan; and the five candidates {Vanilla, Vanilla,
Versioned(1,0,0), Versioned(1,0,0), UnversionedKnown(7)} dedup to
exactly 3 entries. -/
theorem c4_catalog_dedup :
    (∀ (dlls : List OriDll) (currentIdx : Option Nat),
      (sort_and_filter_duplicates dlls currentIdx).Pairwise
        (fun a b => a.kind ≠ b.kind)) ∧
    (∀ (managed : String) (listing : Except String (List (Except String DirEntry)))
        (current : Option OriDll) (catalog : List OriDll),
      search_game_dir managed listing = .ok (current, catalog) →
      catalog.Pairwise (fun a b => a.kind ≠ b.kind)) ∧
    (sort_and_filter_duplicates fiveCandidates none).length = 3 := by
  refine ⟨sort_and_filter_pairwise, ?_, ?_⟩
  · intro managed listing current catalog h
    unfold search_game_dir at h
    repeat' split at h
    any_goals exact Except.noConfusion h
    rename_i allDlls hscan
    rw [Except.ok.injEq, Prod.mk.injEq] at h
    rw [← h.2]
    exact sort_and_filter_pairwise _ _
  · show (filterDup none
      (fiveCandidates.mergeSort (fun a b => kindLe a.kind b.kind))).length = 3
    rw [List.mergeSort_of_sorted (by decide)]
    decide

/-- Witness for C4: an empty managed directory scans to an empty
catalog, which trivially satisfies the no-duplicate-identities
invariant. -/
theorem c4_catalog_dedup_witness :
    ([] : List OriDll).Pairwise (fun a b => a.kind ≠ b.kind) := by
  have hscan : search_game_dir "g" (.ok []) = .ok (none, []) := by
    simp [search_game_dir, scanEntries, sort_and_filter_duplicates, filterDup,
      List.mergeSort_nil, List.findIdx?]
  exact (c4_catalog_dedup).2.1 "g" (.ok []) none [] hscan
